import Mathlib

/-!
# Verification of the HTML → document-model parser

Shallow embedding of `crates/ui/src/text/format/html.rs` (and the
selection-snapping pass of `crates/ui/src/text/inline.rs`) of the
`gpui-component` repository, together with proofs settling the frozen
claims about it.

Conventions of the embedding:
* The generic DOM tree produced by the external tokenizer is modelled by the
  inductive type `Dom` (element / text / document / doctype / comment /
  processing-instruction nodes, attributes as ordered name–value lists).
* Rust byte offsets (`String::len`, mark ranges) are modelled with
  `String.utf8ByteSize`; concrete inputs used in witnesses are ASCII.
* Rust string primitives (`ends_with`, `trim`, `split`, …) are implemented
  over the character list of the string so that they evaluate by kernel
  reduction; they follow the documented Rust semantics (with Unicode
  case/whitespace tables restricted to what `Char.toLower` /
  `Char.isWhitespace` cover — all inputs relevant here are ASCII).
* Rust `f32` parsing is abstracted by `parseF32`, an exact-rational parser for
  the finite-decimal fragment of the `f32::from_str` grammar (sign, digits,
  optional fraction, optional exponent); `inf`/`nan` and float rounding are
  outside the model.
* Mutable accumulators (`Paragraph`) are threaded explicitly through the
  recursion.
-/

/-! ## String primitives over character lists -/

/-- Byte length of a string, matching Rust `str::len` (UTF-8 bytes). -/
def byteLen (s : String) : Nat := s.utf8ByteSize

/-- Rust `str::ends_with`. -/
def endsWithStr (s pat : String) : Bool :=
  pat.data.reverse.isPrefixOf s.data.reverse

/-- Rust `str::starts_with`. -/
def startsWithStr (s pat : String) : Bool :=
  pat.data.isPrefixOf s.data

/-- Rust `str::strip_prefix`: drop `pat` from the front when it is there. -/
def dropPre (pat s : String) : Option String :=
  if startsWithStr s pat then some ⟨s.data.drop pat.data.length⟩ else none

/-- Split a character list at the first character satisfying `p`.
Returns the part before and, when a split character exists, the part after. -/
def splitAtFirst (p : Char → Bool) : List Char → List Char × Option (List Char)
  | [] => ([], none)
  | c :: cs =>
    if p c then ([], some cs)
    else
      let r := splitAtFirst p cs
      (c :: r.1, r.2)

/-- Split a character list at every character satisfying `p` (the separators
are dropped; empty chunks are kept, as in Rust `str::split`). -/
def splitPred (p : Char → Bool) : List Char → List (List Char)
  | [] => [[]]
  | c :: rest =>
    let r := splitPred p rest
    if p c then [] :: r else (c :: r.headD []) :: r.tail

/-- Rust `str::split` with a single-character separator. -/
def splitChar (sep : Char) (s : String) : List String :=
  (splitPred (· == sep) s.data).map (fun l => (⟨l⟩ : String))

/-- Rust `str::trim`. -/
def trimStr (s : String) : String :=
  ⟨((s.data.dropWhile Char.isWhitespace).reverse.dropWhile Char.isWhitespace).reverse⟩

/-- Rust `str::to_lowercase` (character-wise). -/
def lowerStr (s : String) : String := ⟨s.data.map Char.toLower⟩

/-- Rust `str::split_whitespace`: whitespace-separated words. -/
def words (s : String) : List String :=
  ((splitPred Char.isWhitespace s.data).filter (fun l => !l.isEmpty)).map
    (fun l => (⟨l⟩ : String))

/-- Repeatedly strip the (reversed) pattern from the front of a reversed
character list; the fuel is an upper bound on the number of removals. -/
def stripTrailFuel (patRev : List Char) : Nat → List Char → List Char
  | 0, rs => rs
  | fuel + 1, rs =>
    if !patRev.isEmpty && patRev.isPrefixOf rs then
      stripTrailFuel patRev fuel (rs.drop patRev.length)
    else rs

/-- Rust `str::trim_end_matches`: repeatedly removes the suffix `pat` from `s`.
`s.data.length` steps of fuel suffice since each removal drops a char. -/
def trimEndMatches (s pat : String) : String :=
  ⟨(stripTrailFuel pat.data.reverse s.data.length s.data.reverse).reverse⟩

/-! ## Number parsing (Rust `f32::from_str`, finite-decimal fragment) -/

/-- Numeric value of a decimal digit character. -/
def digitVal (c : Char) : Nat := c.toNat - 48

/-- Value of a list of decimal digit characters, most significant first. -/
def digitsVal (cs : List Char) : Nat := cs.foldl (fun n c => 10 * n + digitVal c) 0

/-- All characters are ASCII decimal digits. -/
def allDigits (cs : List Char) : Bool := cs.all (·.isDigit)

/-- `10 ^ e` over ℚ for an integer exponent. -/
def qpow10 (e : Int) : ℚ := if 0 ≤ e then (10 : ℚ) ^ e.toNat else 1 / (10 : ℚ) ^ (-e).toNat

/-- Leading sign of a numeral, Rust `f32::from_str` style. -/
def parseSign : List Char → ℚ × List Char
  | '+' :: cs => (1, cs)
  | '-' :: cs => (-1, cs)
  | cs => (1, cs)

/-- Mantissa of a decimal numeral: `Digits '.'? Digits?` or `'.' Digits`. -/
def parseMantissa (cs : List Char) : Option ℚ :=
  let r := splitAtFirst (· == '.') cs
  match r.2 with
  | none => if allDigits r.1 && !r.1.isEmpty then some (digitsVal r.1) else none
  | some fp =>
    if allDigits r.1 && allDigits fp && (!r.1.isEmpty || !fp.isEmpty) then
      some ((digitsVal r.1 : ℚ) + (digitsVal fp : ℚ) / (10 : ℚ) ^ fp.length)
    else none

/-- Exponent part of a decimal numeral: optional sign then digits. -/
def parseExp (cs : List Char) : Option Int :=
  let sd : Int × List Char :=
    match cs with
    | '+' :: t => (1, t)
    | '-' :: t => (-1, t)
    | t => (1, t)
  if allDigits sd.2 && !sd.2.isEmpty then some (sd.1 * digitsVal sd.2) else none

/-- Modelled from the source's use of Rust `str::parse::<f32>`: parser for the
finite-decimal fragment of the `f32::from_str` grammar, returning the exact
rational value.  `inf`/`nan` inputs and float rounding are outside the model. -/
def parseF32 (s : String) : Option ℚ :=
  let sg := parseSign s.data
  let me := splitAtFirst (fun c => c == 'e' || c == 'E') sg.2
  match me.2 with
  | none => (parseMantissa me.1).map (fun m => sg.1 * m)
  | some ecs =>
    match parseMantissa me.1, parseExp ecs with
    | some m, some e => some (sg.1 * m * qpow10 e)
    | _, _ => none

/-! ## Attribute and style accessors (`html.rs`) -/

/-- Length values resolved by the parser: absolute pixels or a relative
fraction.  Modelled from the spec's `Length` (the `gpui::DefiniteLength`
type is external to this repository); numbers are exact rationals. -/
inductive DefiniteLength where
  | px (v : ℚ)
  | relative (v : ℚ)
deriving DecidableEq, Repr

/-- `value_to_length` from `html.rs`: percentage values become relative
lengths (value / 100), otherwise trailing `px` suffixes are stripped and the
remainder is parsed as a pixel value; parse failure yields `none`. -/
def value_to_length (value : String) : Option DefiniteLength :=
  if endsWithStr value "%" then
    (parseF32 (trimEndMatches value "%")).map (fun v => .relative (v / 100))
  else
    (parseF32 (trimEndMatches value "px")).map (fun v => .px v)

/-- `attr_value` from `html.rs`: first attribute with the given name. -/
def attr_value (attrs : List (String × String)) (name : String) : Option String :=
  attrs.findSome? fun attr => if attr.1 == name then some attr.2 else none

/-- `is_emoji_class` from `html.rs`: the `class` attribute contains the token
`emoji` or `emoji-only`. -/
def is_emoji_class (attrs : List (String × String)) : Bool :=
  match attr_value attrs "class" with
  | some c => (words c).any (fun cls => cls == "emoji" || cls == "emoji-only")
  | none => false

/-- Split a declaration at its first `:` (Rust `splitn(2, ':')`); `none` when
the declaration contains no `:`. -/
def splitFirstColon (decl : String) : Option (String × String) :=
  match splitAtFirst (· == ':') decl.data with
  | (_, none) => none
  | (before, some after) => some (⟨before⟩, ⟨after⟩)

/-- `style_attrs` from `html.rs`: parse the `style` attribute into `key, value`
declarations (split on `;`, each at the first `:`, keys lower-cased and
trimmed, values trimmed; declarations without `:` skipped).  The Rust
`HashMap` is modelled as the insertion-ordered list of declarations;
lookups take the last declaration for a key (`HashMap::insert` overwrites). -/
def style_attrs (attrs : List (String × String)) : List (String × String) :=
  match attr_value attrs "style" with
  | none => []
  | some css =>
    (splitChar ';' css).foldl
      (fun acc decl =>
        match splitFirstColon decl with
        | some kv => acc ++ [(lowerStr (trimStr kv.1), trimStr kv.2)]
        | none => acc)
      []

/-- Last-wins lookup into the declaration list (Rust `HashMap::get` after
repeated `insert`). -/
def styleGet (styles : List (String × String)) (key : String) : Option String :=
  ((styles.reverse).find? (fun kv => kv.1 == key)).map (·.2)

/-- `attr_width_height` from `html.rs`: resolve width and height from the
explicit attributes, consulting the `style` declarations for whichever of the
two is still unresolved. -/
def attr_width_height (attrs : List (String × String)) :
    Option DefiniteLength × Option DefiniteLength :=
  let width0 := match attr_value attrs "width" with
    | some v => value_to_length v
    | none => none
  let height0 := match attr_value attrs "height" with
    | some v => value_to_length v
    | none => none
  if width0.isNone || height0.isNone then
    let styles := style_attrs attrs
    let width1 := if width0.isNone
      then (styleGet styles "width").bind (fun v => value_to_length v) else width0
    let height1 := if height0.isNone
      then (styleGet styles "height").bind (fun v => value_to_length v) else height0
    (width1, height1)
  else (width0, height0)

/-! ## The generic DOM tree (input of the walk) -/

/-- Modelled from the spec: the generic DOM tree supplied by the external
tokenizer — node kind (document / element / text / comment / doctype /
processing-instruction), tag name and ordered attribute list for elements,
ordered child list. -/
inductive Dom where
  | text (contents : String)
  | element (name : String) (attrs : List (String × String)) (children : List Dom)
  | document (children : List Dom)
  | doctype
  | comment
  | pi
deriving Repr

/-- Child list of a DOM node (non-container kinds have none). -/
def Dom.childrenOf : Dom → List Dom
  | .element _ _ cs => cs
  | .document cs => cs
  | _ => []

/-- Attribute list of a DOM node (non-elements have none). -/
def Dom.attrsOf : Dom → List (String × String)
  | .element _ a _ => a
  | _ => []

/-- Tag name of an element node. -/
def Dom.tag? : Dom → Option String
  | .element n _ _ => some n
  | _ => none

mutual
/-- Nesting depth of a DOM node (leaves have depth 1). -/
def Dom.depth : Dom → Nat
  | .element _ _ cs => 1 + depthL cs
  | .document cs => 1 + depthL cs
  | _ => 1
/-- Greatest depth of a list of DOM nodes. -/
def depthL : List Dom → Nat
  | [] => 0
  | d :: ds => max d.depth (depthL ds)
end

/-! ## The document model (`node.rs`, not under `src/`; modelled from spec §3) -/

/-- Modelled from the spec: a link mark's payload (`LinkMark` in `node.rs`). -/
structure LinkMark where
  url : String
  title : Option String
deriving DecidableEq, Repr

/-- Modelled from the spec: the `TextMark` variant set — bold, italic,
strikethrough, inline code, link.  The Rust builder calls
`TextMark::default().bold()` etc. each produce the single corresponding
variant here. -/
inductive TextMark where
  | bold
  | italic
  | strikethrough
  | code
  | link (l : LinkMark)
deriving DecidableEq, Repr

/-- Modelled from the spec: `ImageNode` fields. -/
structure ImageNode where
  url : String
  alt : Option String := none
  title : Option String := none
  width : Option DefiniteLength := none
  height : Option DefiniteLength := none
  link : Option String := none
  is_inline : Bool := false
deriving DecidableEq, Repr

/-- A mark list: byte ranges `[start, stop)` paired with marks. -/
abbrev Marks := List ((Nat × Nat) × TextMark)

/-- Modelled from the spec: an inline node is styled text or an inline image. -/
inductive InlineNode where
  | text (text : String) (marks : Marks)
  | image (img : ImageNode)
deriving DecidableEq, Repr

/-- Modelled from the spec: the paragraph accumulator — an ordered sequence of
inline nodes. -/
structure Paragraph where
  children : List InlineNode := []
deriving DecidableEq, Repr

/-- Modelled from the spec: `Paragraph::push_str` appends raw text. -/
def Paragraph.push_str (p : Paragraph) (s : String) : Paragraph :=
  { children := p.children ++ [.text s []] }

/-- Modelled from the spec: `Paragraph::push` appends an inline node. -/
def Paragraph.push (p : Paragraph) (n : InlineNode) : Paragraph :=
  { children := p.children ++ [n] }

/-- Modelled from the spec: `Paragraph::push_image` appends an inline image. -/
def Paragraph.push_image (p : Paragraph) (img : ImageNode) : Paragraph :=
  { children := p.children ++ [.image img] }

/-- Modelled from the spec: `Paragraph::is_empty` — no inline children. -/
def Paragraph.is_empty (p : Paragraph) : Bool := p.children.isEmpty

/-- Modelled from the spec: `Paragraph::take` drains the accumulator,
returning its value and the reset (empty) accumulator. -/
def Paragraph.take (p : Paragraph) : Paragraph × Paragraph := (p, {})

/-- Modelled from the spec: `Paragraph::text_len` — total byte length of the
accumulated text (images contribute nothing). -/
def Paragraph.text_len (p : Paragraph) : Nat :=
  p.children.foldl
    (fun n c => n + match c with | .text s _ => byteLen s | .image _ => 0) 0

/-- Modelled from the spec: `Paragraph::merge` appends the other paragraph's
children. -/
def Paragraph.merge (p other : Paragraph) : Paragraph :=
  { children := p.children ++ other.children }

/-- Modelled from the spec: `Paragraph::is_image` — the paragraph holds an
image (with nothing else). -/
def Paragraph.is_image (p : Paragraph) : Bool :=
  !p.children.isEmpty &&
    p.children.all fun c => match c with | .image _ => true | .text _ _ => false

/-! ## Inline paragraph builder (`parse_paragraph` in `html.rs`) -/

/-- `merge_child_text` from `html.rs`, verbatim: append `new_text` to `text`
and splice `new_marks` into `marks`.  Note the recorded range end is
`new_text.len() + offset` (as in the source), not `range.end + offset`. -/
def merge_child_text (text : String) (marks : Marks)
    (new_text : String) (new_marks : Marks) : String × Marks :=
  let offset := byteLen text
  (text ++ new_text,
   marks ++ new_marks.map (fun rm => ((rm.1.1 + offset, byteLen new_text + offset), rm.2)))

mutual
/-- `parse_paragraph` from `html.rs`: walk an element subtree accumulating
plain text and byte-range style marks; the threaded accumulator is returned
first, then the local text and marks handed back to the caller. -/
def parse_paragraph (paragraph : Paragraph) (node : Dom) :
    Paragraph × String × Marks :=
  match node with
  | .text contents =>
    let text := "" ++ contents
    (paragraph.push_str text, text, [])
  | .element name attrs children =>
    match name with
    | "em" | "i" =>
      let r := pp_children {} "" [] children
      let marks := r.2.2 ++ [((0, byteLen r.2.1), TextMark.italic)]
      (paragraph.push (.text r.2.1 marks), r.2.1, marks)
    | "strong" | "b" =>
      let r := pp_children {} "" [] children
      let marks := r.2.2 ++ [((0, byteLen r.2.1), TextMark.bold)]
      (paragraph.push (.text r.2.1 marks), r.2.1, marks)
    | "del" | "s" =>
      let r := pp_children {} "" [] children
      let marks := r.2.2 ++ [((0, byteLen r.2.1), TextMark.strikethrough)]
      (paragraph.push (.text r.2.1 marks), r.2.1, marks)
    | "code" =>
      let r := pp_children {} "" [] children
      let marks := r.2.2 ++ [((0, byteLen r.2.1), TextMark.code)]
      (paragraph.push (.text r.2.1 marks), r.2.1, marks)
    | "a" =>
      let r := pp_children {} "" [] children
      let marks := r.2.2 ++ [((0, byteLen r.2.1),
        TextMark.link { url := (attr_value attrs "href").getD "",
                        title := attr_value attrs "title" })]
      (paragraph.push (.text r.2.1 marks), r.2.1, marks)
    | "img" =>
      match attr_value attrs "src" with
      | none => (paragraph, "", [])
      | some src =>
        let alt := attr_value attrs "alt"
        let title := attr_value attrs "title"
        let wh := attr_width_height attrs
        (paragraph.push_image
          { url := src, link := none, alt := alt, width := wh.1, height := wh.2,
            title := title, is_inline := is_emoji_class attrs }, "", [])
    | _ =>
      let r := pp_children {} "" [] children
      (paragraph.push (.text r.2.1 r.2.2), r.2.1, r.2.2)
  | .document children =>
    let r := pp_children {} "" [] children
    (paragraph.push (.text r.2.1 r.2.2), r.2.1, r.2.2)
  | _ =>
    (paragraph.push (.text "" []), "", [])
/-- The child loop shared by the `parse_paragraph` element arms: recurse into
each child with the local accumulator and splice its text and marks via
`merge_child_text`. -/
def pp_children (cp : Paragraph) (text : String) (marks : Marks) :
    List Dom → Paragraph × String × Marks
  | [] => (cp, text, marks)
  | n :: rest =>
    let r := parse_paragraph cp n
    let tm := merge_child_text text marks r.2.1 r.2.2
    pp_children r.1 tm.1 tm.2 rest
end

/-! ## Code block extractor (`extract_pre_code` in `html.rs`) -/

mutual
/-- `collect_text_content` / `collect_text_recursive` from `html.rs`:
recursively concatenate all descendant text. -/
def collect_text_content : Dom → String
  | .text contents => "" ++ contents
  | .element _ _ cs => collectTextL cs
  | .document cs => collectTextL cs
  | .doctype => ""
  | .comment => ""
  | .pi => ""
/-- Concatenated descendant text of a node list. -/
def collectTextL : List Dom → String
  | [] => ""
  | c :: cs => collect_text_content c ++ collectTextL cs
end

/-- The token scan inside `extract_code_language`: first token with a
`language-` or `lang-` prefix, prefix stripped. -/
def ecl_loop : List String → Option String
  | [] => none
  | cls :: rest =>
    match dropPre "language-" cls with
    | some lang => some lang
    | none =>
      match dropPre "lang-" cls with
      | some lang => some lang
      | none => ecl_loop rest

/-- `extract_code_language` from `html.rs`: language identifier from the
`class` attribute. -/
def extract_code_language (attrs : List (String × String)) : Option String :=
  (attr_value attrs "class").bind fun cls => ecl_loop (words cls)

/-- The child scan inside `extract_pre_code`: first `code` element child
whose descendant text is non-empty. -/
def pre_code_loop : List Dom → Option (String × Option String)
  | [] => none
  | c :: rest =>
    match c with
    | .element name cattrs cch =>
      if name == "code" then
        let lang := extract_code_language cattrs
        let text := collect_text_content (.element name cattrs cch)
        if text != "" then some (text, lang) else pre_code_loop rest
      else pre_code_loop rest
    | _ => pre_code_loop rest

/-- `extract_pre_code` from `html.rs`: code text and language of a `pre`
element — the first non-empty `code` child, else the `pre`'s own descendant
text with no language, else nothing. -/
def extract_pre_code (node : Dom) : Option (String × Option String) :=
  match pre_code_loop node.childrenOf with
  | some r => some r
  | none =>
    let text := collect_text_content node
    if text != "" then some (text, none) else none

/-! ## Table builder (`parse_table_row` / `parse_table_cell` in `html.rs`) -/

/-- Modelled from the spec: a table cell — paragraph content and an optional
width. -/
structure TableCell where
  children : Paragraph := {}
  width : Option DefiniteLength := none
deriving DecidableEq, Repr

/-- Modelled from the spec: a table row — ordered cells. -/
structure TableRow where
  children : List TableCell := []
deriving DecidableEq, Repr

/-- Modelled from the spec: a table — ordered rows. -/
structure Table where
  children : List TableRow := []
deriving DecidableEq, Repr

/-- The `for child` loop of `parse_table_cell`: run the inline paragraph
builder over each child, threading the accumulator. -/
def pp_fold (paragraph : Paragraph) : List Dom → Paragraph
  | [] => paragraph
  | c :: rest => pp_fold (parse_paragraph paragraph c).1 rest

/-- `parse_table_cell` from `html.rs`: build the cell's paragraph from the
cell node's children and record it with the resolved width. -/
def parse_table_cell (row : TableRow) (node : Dom)
    (attrs : List (String × String)) : TableRow :=
  let paragraph := pp_fold {} node.childrenOf
  let width := (attr_width_height attrs).1
  { row with children := row.children ++ [{ children := paragraph, width := width }] }

/-- The child loop of `parse_table_row`: `td`/`th` elements with a non-empty
child list become cells; everything else is skipped.  Returns the row and the
surviving-cell count. -/
def ptr_loop : List Dom → TableRow × Nat → TableRow × Nat
  | [], acc => acc
  | c :: rest, acc =>
    match c with
    | .element name cattrs cch =>
      if name == "td" || name == "th" then
        if cch.isEmpty then ptr_loop rest acc
        else ptr_loop rest (parse_table_cell acc.1 (.element name cattrs cch) cattrs, acc.2 + 1)
      else ptr_loop rest acc
    | _ => ptr_loop rest acc

/-- `parse_table_row` from `html.rs`: append the row to the table only when
at least one cell survived. -/
def parse_table_row (table : Table) (node : Dom) : Table :=
  let rc := ptr_loop node.childrenOf ({}, 0)
  if rc.2 > 0 then { table with children := table.children ++ [rc.1] } else table

/-! ## Block nodes and the flushing rule -/

/-- Modelled from the spec: the block-node variants of the document model
(`BlockNode` in `node.rs`).  Constructor names are lower-cased to avoid
clashing with the accompanying payload types. -/
inductive BlockNode where
  | root (children : List BlockNode)
  | heading (level : Nat) (children : Paragraph)
  | paragraph (p : Paragraph)
  | list (children : List BlockNode) (ordered : Bool)
  | listItem (children : List BlockNode) (spread : Bool) (checked : Option Bool)
  | table (t : Table)
  | blockquote (children : List BlockNode)
  | codeBlock (code : String) (lang : Option String)
  | breakNode (html : Bool)
  | unknown
deriving Repr

/-- `consume_paragraph` from `html.rs` (the flushing rule): a non-empty
accumulator is drained into one `Paragraph` block appended to `children`;
an empty accumulator is a no-op. -/
def consume_paragraph (children : List BlockNode) (paragraph : Paragraph) :
    List BlockNode × Paragraph :=
  if paragraph.is_empty then (children, paragraph)
  else
    let t := paragraph.take
    (children ++ [.paragraph t.1], t.2)

mutual
/-- Modelled from the spec: `BlockNode::compact` (defined in `node.rs`, not
under `src/`) — collapse every `Root` node whose children sequence has
exactly one element into that single child, recursively (a pure, depth-first
collapse). -/
def BlockNode.compact : BlockNode → BlockNode
  | .root [x] => x.compact
  | .root xs => .root (compactL xs)
  | .list xs ordered => .list (compactL xs) ordered
  | .listItem xs spread checked => .listItem (compactL xs) spread checked
  | .blockquote xs => .blockquote (compactL xs)
  | b => b
/-- `compact` mapped over a child list. -/
def compactL : List BlockNode → List BlockNode
  | [] => []
  | x :: xs => x.compact :: compactL xs
end

/-! ## Block tree builder (`parse_node` in `html.rs`) -/

/-- `BLOCK_ELEMENTS` from `html.rs`: the fixed catalog of block-level tags. -/
def BLOCK_ELEMENTS : List String :=
  ["html", "body", "head", "address", "article", "aside", "blockquote",
   "details", "summary", "dialog", "div", "dl", "fieldset", "figcaption",
   "figure", "footer", "form", "h1", "h2", "h3", "h4", "h5", "h6", "header",
   "hr", "main", "nav", "ol", "p", "pre", "section", "table", "ul", "style",
   "script"]

/-- The heading-level computation in the `h1`–`h6` arm: last character of the
tag name as a decimal digit, falling back to 6 at both steps. -/
def headingLevel (name : String) : Nat :=
  let c := name.data.getLast?.getD '6'
  if c.isDigit then c.toNat - 48 else 6

/-- The row loop applied to the children of a `tbody`/`thead` wrapper. -/
def table_rows : List Dom → Table → Table
  | [], table => table
  | sub :: rest, table => table_rows rest (parse_table_row table sub)

/-- The `for child` loop of the `table` arm of `parse_node`: `tbody`/`thead`
wrappers are flattened one level, every other child is a row candidate. -/
def table_loop : List Dom → Table → Table
  | [], table => table
  | .element name cattrs cch :: rest, table =>
    if name == "tbody" || name == "thead" then
      table_loop rest (table_rows cch table)
    else
      table_loop rest (parse_table_row table (.element name cattrs cch))
  | c :: rest, table => table_loop rest (parse_table_row table c)

mutual
/-- `parse_node` from `html.rs`: the central recursive dispatcher that
classifies each DOM node into a block node, flushing the threaded paragraph
accumulator at block boundaries.  The accumulator is returned alongside the
optional block.  The `consume_children_nodes` helper of the source is
inlined as `consume_paragraph` followed by `ccn_loop`. -/
def parse_node (node : Dom) (paragraph : Paragraph) : Option BlockNode × Paragraph :=
  match node with
  | .text contents =>
    if 0 < byteLen contents then (none, paragraph.push_str contents)
    else (none, paragraph)
  | .element name attrs children =>
    match name with
    | "br" => (some (.breakNode true), paragraph)
    | "h1" | "h2" | "h3" | "h4" | "h5" | "h6" =>
      let cp := consume_paragraph [] paragraph
      let level := headingLevel name
      let p2 := pp_fold {} children
      let heading := BlockNode.heading level p2
      if 0 < cp.1.length then (some (.root (cp.1 ++ [heading])), cp.2)
      else (some heading, cp.2)
    | "img" =>
      match attr_value attrs "src" with
      | none => (none, paragraph)
      | some src =>
        let alt := attr_value attrs "alt"
        let title := attr_value attrs "title"
        let wh := attr_width_height attrs
        let inl := is_emoji_class attrs
        if inl then
          (none, paragraph.push_image
            { url := src, link := none, title := title, alt := alt,
              width := wh.1, height := wh.2, is_inline := inl })
        else
          let cp := consume_paragraph [] paragraph
          let newp := Paragraph.push_image {}
            { url := src, link := none, title := title, alt := alt,
              width := wh.1, height := wh.2, is_inline := inl }
          if 0 < cp.1.length then
            (some (.root (cp.1 ++ [.paragraph newp])), cp.2)
          else (some (.paragraph newp), cp.2)
    | "ul" | "ol" =>
      let ordered := name == "ol"
      let cp := consume_paragraph [] paragraph
      let r := ccn_loop children cp.1 cp.2
      (some (.list r.1 ordered), r.2)
    | "li" =>
      let cp := consume_paragraph [] paragraph
      let cs := li_loop children cp.1
      let cp2 := consume_paragraph cs cp.2
      (some (.listItem cp2.1 false none), cp2.2)
    | "table" =>
      let cp := consume_paragraph [] paragraph
      let table := table_loop children {}
      let cp2 := consume_paragraph cp.1 cp.2
      if 0 < cp2.1.length then (some (.root (cp2.1 ++ [.table table])), cp2.2)
      else (some (.table table), cp2.2)
    | "blockquote" =>
      let cp := consume_paragraph [] paragraph
      let r := ccn_loop children cp.1 cp.2
      (some (.blockquote r.1), r.2)
    | "pre" =>
      let cp := consume_paragraph [] paragraph
      match extract_pre_code (.element name attrs children) with
      | some r =>
        let cb := BlockNode.codeBlock r.1 r.2
        if cp.1.isEmpty then (some cb, cp.2)
        else (some (.root (cp.1 ++ [cb])), cp.2)
      | none =>
        let r := pn_children_generic children cp.1 cp.2
        let cp2 := consume_paragraph r.1 r.2
        if cp2.1.isEmpty then (none, cp2.2) else (some (.root cp2.1), cp2.2)
    | "style" | "script" => (none, paragraph)
    | _ =>
      if BLOCK_ELEMENTS.contains (trimStr name) then
        let cp := consume_paragraph [] paragraph
        let r := pn_children_generic children cp.1 cp.2
        let cp2 := consume_paragraph r.1 r.2
        if cp2.1.isEmpty then (none, cp2.2) else (some (.root cp2.1), cp2.2)
      else
        let pr := parse_paragraph paragraph (.element name attrs children)
        if pr.1.is_image then
          let t := pr.1.take
          (some (.paragraph t.1), t.2)
        else (none, pr.1)
  | .document children =>
    let cp := consume_paragraph [] paragraph
    let r := ccn_loop children cp.1 cp.2
    (some (.root r.1), r.2)
  | .doctype => (none, paragraph)
  | .comment => (none, paragraph)
  | .pi => (none, paragraph)
/-- The child loop shared by the generic block-element path and the `pre`
fallback: collect child block nodes, flushing only around the whole loop. -/
def pn_children_generic : List Dom → List BlockNode → Paragraph →
    List BlockNode × Paragraph
  | [], children, paragraph => (children, paragraph)
  | c :: rest, children, paragraph =>
    let r := parse_node c paragraph
    let children := match r.1 with | some cn => children ++ [cn] | none => children
    pn_children_generic rest children r.2
/-- The loop of `consume_children_nodes` from `html.rs`: collect child block
nodes, flushing the accumulator after every child. -/
def ccn_loop : List Dom → List BlockNode → Paragraph → List BlockNode × Paragraph
  | [], children, paragraph => (children, paragraph)
  | c :: rest, children, paragraph =>
    let r := parse_node c paragraph
    let children := match r.1 with | some cn => children ++ [cn] | none => children
    let cp := consume_paragraph children r.2
    ccn_loop rest cp.1 cp.2
/-- The child loop of the `li` arm: each child parsed with a fresh local
accumulator; leftover child text merges into a trailing paragraph block. -/
def li_loop : List Dom → List BlockNode → List BlockNode
  | [], children => children
  | c :: rest, children =>
    let r := parse_node c {}
    let children := match r.1 with | some cn => children ++ [cn] | none => children
    let children :=
      if 0 < r.2.text_len then
        match children.getLast? with
        | some (.paragraph lp) => children.dropLast ++ [.paragraph (lp.merge r.2)]
        | _ => children ++ [.paragraph r.2]
      else children
    li_loop rest children
end

/-! ## Document assembly (`parse` in `html.rs`) -/

/-- Modelled from the spec: the parsed document — the original source text
paired with the resulting blocks (`ParsedDocument` in `document.rs`). -/
structure ParsedDocument where
  source : String
  blocks : List BlockNode
deriving Repr

/-- `parse` from `html.rs`, taken from the DOM produced by the external
tokenizer onwards (tokenizer and minifier are external collaborators): build
the block tree, defaulting to `Unknown`, compact it, and return the document.
The source's only error path (`read_from` failing) lies inside the external
tokenizer, before this point. -/
def parse (source : String) (dom : Dom) : Except String ParsedDocument :=
  Except.ok { source := source,
              blocks := [((parse_node dom {}).1.getD .unknown).compact] }

/-- Nested `div` elements of the given extra depth: a family of inputs of
unbounded nesting depth. -/
def deepDiv : Nat → Dom
  | 0 => .element "div" [] []
  | n + 1 => .element "div" [] [deepDiv n]

/-! ## Selection snapping (`Inline::paint` in `inline.rs`) -/

/-- `InlineOverlay` from `inline.rs`, restricted to the fields the snapping
pass reads: byte offset and placeholder byte length (the image data and
paint size play no role there). -/
structure InlineOverlay where
  offset : Nat
  placeholder_len : Nat
deriving DecidableEq, Repr

/-- A text selection as a byte range.  The Rust field `end` is called `stop`
here (`end` is a reserved word in Lean). -/
structure Selection where
  start : Nat
  stop : Nat
deriving DecidableEq, Repr

/-- One step of the snapping loop in `Inline::paint`: when the selection
partially overlaps the overlay's placeholder range `[offset, offset +
placeholder_len)`, extend it to cover the entire placeholder. -/
def snap_overlay (sel : Selection) (o : InlineOverlay) : Selection :=
  let range_start := o.offset
  let range_stop := o.offset + o.placeholder_len
  if range_start < sel.stop ∧ sel.start < range_stop then
    { start := min sel.start range_start, stop := max sel.stop range_stop }
  else sel

/-- The snapping pass of `Inline::paint`: fold the snapping step over the
overlay list in order. -/
def snap_selection (sel : Selection) (overlays : List InlineOverlay) : Selection :=
  overlays.foldl snap_overlay sel

/-- The selection contains the overlay's entire placeholder range. -/
def covers (sel : Selection) (o : InlineOverlay) : Prop :=
  sel.start ≤ o.offset ∧ o.offset + o.placeholder_len ≤ sel.stop

/-- The selection does not intersect the overlay's placeholder range. -/
def apartFrom (sel : Selection) (o : InlineOverlay) : Prop :=
  sel.stop ≤ o.offset ∨ o.offset + o.placeholder_len ≤ sel.start

/-- No partial overlap: the selection either contains the overlay's whole
placeholder range or is disjoint from it. -/
def selOk (sel : Selection) (o : InlineOverlay) : Prop :=
  covers sel o ∨ apartFrom sel o

/-- Two overlays have disjoint placeholder ranges. -/
def overlaysDisjoint (a b : InlineOverlay) : Prop :=
  a.offset + a.placeholder_len ≤ b.offset ∨ b.offset + b.placeholder_len ≤ a.offset

/-! ## Spec-side characterizations of the extractor and the table builder -/

/-- A direct child the `pre` extractor accepts: a `code` element with
non-empty descendant text. -/
def goodCode : Dom → Bool
  | .element name cattrs cch =>
    name == "code" && (collect_text_content (.element name cattrs cch) != "")
  | _ => false

/-- The spec's description of the language extraction (C5): the first
whitespace-separated class token bearing a `language-` or `lang-` prefix,
prefix stripped; `none` when no such token exists. -/
def spec_code_language (attrs : List (String × String)) : Option String :=
  match attr_value attrs "class" with
  | none => none
  | some cls =>
    (words cls).findSome? fun tok =>
      match dropPre "language-" tok with
      | some l => some l
      | none => dropPre "lang-" tok

/-- The spec's description of `extract_pre_code` (C5): the first direct
`code` child with non-empty descendant text yields that text and its
class-derived language; otherwise the `pre`'s own descendant text with no
language; `none` only when that fallback text is also empty. -/
def spec_extract_pre_code (node : Dom) : Option (String × Option String) :=
  match node.childrenOf.find? goodCode with
  | some c => some (collect_text_content c, spec_code_language c.attrsOf)
  | none =>
    if collect_text_content node != "" then some (collect_text_content node, none)
    else none

/-- A row child that counts as a cell: a `td`/`th` element with a non-empty
DOM child list. -/
def goodCell : Dom → Bool
  | .element name _ cch => (name == "td" || name == "th") && !cch.isEmpty
  | _ => false

/-- The cell produced from a surviving `td`/`th` child: its paragraph content
and resolved width. -/
def cellOf (c : Dom) : TableCell :=
  { children := pp_fold {} c.childrenOf, width := (attr_width_height c.attrsOf).1 }

/-- The claim's reading of `value_to_length` (C9 as stated): at most one
trailing `px` is stripped before parsing — for comparison with the source's
`value_to_length`, which strips trailing `px` occurrences repeatedly. -/
def claim_value_to_length (value : String) : Option DefiniteLength :=
  if endsWithStr value "%" then
    (parseF32 (trimEndMatches value "%")).map (fun v => .relative (v / 100))
  else
    (parseF32 (if endsWithStr value "px"
      then ⟨value.data.take (value.data.length - 2)⟩ else value)).map (fun v => .px v)


theorem snap_overlay_ok_self (sel : Selection) (o : InlineOverlay) :
    selOk (snap_overlay sel o) o := by
  simp only [snap_overlay, selOk, covers, apartFrom]
  split <;> (try dsimp only) <;> omega

theorem snap_overlay_preserves (sel : Selection) (o j : InlineOverlay)
    (hok : selOk sel j) (hd : overlaysDisjoint o j) :
    selOk (snap_overlay sel o) j := by
  simp only [selOk, covers, apartFrom] at hok
  simp only [overlaysDisjoint] at hd
  simp only [snap_overlay, selOk, covers, apartFrom]
  split <;> (try dsimp only) <;> omega

theorem snap_fold_preserves (rest : List InlineOverlay) :
    ∀ (sel : Selection) (j : InlineOverlay), selOk sel j →
      (∀ o ∈ rest, overlaysDisjoint o j) → selOk (snap_selection sel rest) j := by
  induction rest with
  | nil => intro sel j hok _; exact hok
  | cons o rest ih =>
    intro sel j hok hd
    exact ih (snap_overlay sel o) j
      (snap_overlay_preserves sel o j hok (hd o (List.mem_cons_self o rest)))
      (fun o' ho' => hd o' (List.mem_cons_of_mem o ho'))

/-- With pairwise-disjoint overlay ranges, the snapped selection has no
partial overlap with any overlay. -/
theorem snap_selection_ok (overlays : List InlineOverlay) :
    ∀ (sel : Selection), List.Pairwise overlaysDisjoint overlays →
      ∀ o ∈ overlays, selOk (snap_selection sel overlays) o := by
  induction overlays with
  | nil => intro sel _ o ho; cases ho
  | cons o rest ih =>
    intro sel h o' ho'
    rcases List.pairwise_cons.mp h with ⟨hhead, htail⟩
    rcases List.mem_cons.mp ho' with rfl | hmem
    · exact snap_fold_preserves rest (snap_overlay sel o') o'
        (snap_overlay_ok_self sel o')
        (fun y hy => (hhead y hy).symm)
    · exact ih (snap_overlay sel o) htail o' hmem

/-! ## Idempotence of compaction -/

mutual
theorem compact_idem_aux : (b : BlockNode) → b.compact.compact = b.compact
  | .root [] => rfl
  | .root [x] => compact_idem_aux x
  | .root (x :: y :: xs) => congrArg BlockNode.root (compactL_idem_aux (x :: y :: xs))
  | .list xs o => congrArg (fun l => BlockNode.list l o) (compactL_idem_aux xs)
  | .listItem xs s c => congrArg (fun l => BlockNode.listItem l s c) (compactL_idem_aux xs)
  | .blockquote xs => congrArg BlockNode.blockquote (compactL_idem_aux xs)
  | .heading _ _ => rfl
  | .paragraph _ => rfl
  | .table _ => rfl
  | .codeBlock _ _ => rfl
  | .breakNode _ => rfl
  | .unknown => rfl
theorem compactL_idem_aux : (l : List BlockNode) → compactL (compactL l) = compactL l
  | [] => rfl
  | x :: xs => congrArg₂ List.cons (compact_idem_aux x) (compactL_idem_aux xs)
end

theorem ecl_loop_eq (toks : List String) :
    ecl_loop toks = toks.findSome? (fun tok =>
      match dropPre "language-" tok with
      | some l => some l
      | none => dropPre "lang-" tok) := by
  induction toks with
  | nil => rfl
  | cons t ts ih =>
    simp only [ecl_loop, List.findSome?]
    cases h1 : dropPre "language-" t with
    | some l => rfl
    | none =>
      cases h2 : dropPre "lang-" t with
      | some l => rfl
      | none => exact ih

theorem extract_code_language_eq (attrs : List (String × String)) :
    extract_code_language attrs = spec_code_language attrs := by
  unfold extract_code_language spec_code_language
  cases attr_value attrs "class" with
  | none => rfl
  | some cls => exact ecl_loop_eq (words cls)

theorem pre_code_loop_eq (cs : List Dom) :
    pre_code_loop cs = (cs.find? goodCode).map
      (fun c => (collect_text_content c, extract_code_language c.attrsOf)) := by
  induction cs with
  | nil => rfl
  | cons c rest ih =>
    cases c with
    | element name cattrs cch =>
      by_cases h1 : (name == "code") = true
      · by_cases h2 : (collect_text_content (.element name cattrs cch) != "") = true
        · simp [pre_code_loop, goodCode, h1, h2, List.find?, Dom.attrsOf]
        · simp [pre_code_loop, goodCode, h1, h2, List.find?, ih]
      · simp [pre_code_loop, goodCode, h1, List.find?, ih]
    | text s => simpa [pre_code_loop, goodCode, List.find?] using ih
    | document ds => simpa [pre_code_loop, goodCode, List.find?] using ih
    | doctype => simpa [pre_code_loop, goodCode, List.find?] using ih
    | comment => simpa [pre_code_loop, goodCode, List.find?] using ih
    | pi => simpa [pre_code_loop, goodCode, List.find?] using ih

theorem ptr_loop_eq (cs : List Dom) :
    ∀ (row : TableRow) (count : Nat),
      ptr_loop cs (row, count) =
        ({ children := row.children ++ (cs.filter goodCell).map cellOf },
          count + (cs.filter goodCell).length) := by
  induction cs with
  | nil => intro row count; simp [ptr_loop]
  | cons c rest ih =>
    intro row count
    cases c with
    | element name cattrs cch =>
      by_cases h1 : (name == "td" || name == "th") = true
      · by_cases h2 : cch.isEmpty = true
        · simp [ptr_loop, goodCell, h1, h2, ih, List.filter_cons]
        · have hg : goodCell (Dom.element name cattrs cch) = true := by
            simp [goodCell, h1, h2]
          have hstep : ptr_loop (Dom.element name cattrs cch :: rest) (row, count)
              = ptr_loop rest
                  (parse_table_cell row (Dom.element name cattrs cch) cattrs, count + 1) := by
            simp [ptr_loop, h1, h2]
          rw [hstep, ih, List.filter_cons, hg]
          simp only [if_true]
          refine Prod.ext ?_ ?_
          · simp [parse_table_cell, cellOf, Dom.childrenOf, Dom.attrsOf]
          · simp only [List.length_cons]
            omega
      · simp [ptr_loop, goodCell, h1, ih, List.filter_cons]
    | text s => simp [ptr_loop, goodCell, ih]
    | document ds => simp [ptr_loop, goodCell, ih]
    | doctype => simp [ptr_loop, goodCell, ih]
    | comment => simp [ptr_loop, goodCell, ih]
    | pi => simp [ptr_loop, goodCell, ih]

theorem deepDiv_depth (n : Nat) : Dom.depth (deepDiv n) = n + 1 := by
  induction n with
  | zero => rfl
  | succ n ih =>
    simp only [deepDiv, Dom.depth, depthL, ih]
    omega

/-! # The claims -/

/-- C1 (code bug): the spec says a child mark `[s, e)` spliced at parent
offset `off` is recorded as `[s + off, e + off)`; `merge_child_text` instead
records `[s + off, new_text.len() + off)` — the end is taken from the whole
child text, not from the mark.  Evaluated at the failing input: splicing
child text `"xy"` carrying mark `[0, 1)` at offset 0 records `[0, 2)` rather
than the shifted `[0, 1)`, and in a real parse
(`<i><u><b>x</b>yz</u></i>`) the inner bold mark over `"x"` comes out as
`[0, 3)` instead of `[0, 1)`. -/
theorem c1_merge_child_text_end_not_shifted :
    merge_child_text "" [] "xy" [((0, 1), .bold)] = ("xy", [((0, 2), .bold)])
  ∧ (parse_paragraph {} (.element "i" [] [.element "u" []
      [.element "b" [] [.text "x"], .text "yz"]])).2.2
      = [((0, 3), .bold), ((0, 3), .italic)]
  ∧ ((0, 2) : Nat × Nat) ≠ (0 + 0, 1 + 0) :=
  ⟨rfl, rfl, by decide⟩

/-- C2 counterexample: with `width="abc"` (present but unparsable) and
`style="width:100px"`, the resolved width comes from the style attribute even
though the explicit `width` attribute is present — refuting "the style
attribute's declarations are consulted only when the corresponding explicit
attribute is absent". -/
theorem c2_style_consulted_with_attr_present :
    attr_value [("width", "abc"), ("style", "width:100px")] "width" = some "abc"
  ∧ value_to_length "abc" = none
  ∧ (attr_width_height [("width", "abc"), ("style", "width:100px")]).1
      = some (.px 100) := by
  refine ⟨rfl, ?_, ?_⟩
  · simp [value_to_length, endsWithStr, trimEndMatches, stripTrailFuel, parseF32,
      parseSign, splitAtFirst, parseMantissa, allDigits]
  · simp [attr_width_height, attr_value, value_to_length, endsWithStr, trimEndMatches,
      stripTrailFuel, parseF32, parseSign, splitAtFirst, parseMantissa, allDigits,
      digitsVal, digitVal, style_attrs, styleGet, splitChar, splitPred, splitFirstColon,
      trimStr, lowerStr, List.findSome?, List.find?]

/-- C2 (amended): for each of width and height separately, the resolved
length is the parse of the explicit attribute whenever that attribute is
present and its value parses to a length; the style attribute's declarations
are consulted exactly when the explicit attribute is absent or its value
fails to parse. -/
theorem c2_attr_width_height_precedence (attrs : List (String × String)) :
    ((attr_width_height attrs).1 =
      match (attr_value attrs "width").bind value_to_length with
      | some l => some l
      | none => (styleGet (style_attrs attrs) "width").bind value_to_length)
  ∧ ((attr_width_height attrs).2 =
      match (attr_value attrs "height").bind value_to_length with
      | some l => some l
      | none => (styleGet (style_attrs attrs) "height").bind value_to_length) := by
  unfold attr_width_height
  cases hw : attr_value attrs "width" with
  | none =>
    cases hh : attr_value attrs "height" with
    | none => simp
    | some hv => cases hhv : value_to_length hv <;> simp [hhv]
  | some wv =>
    cases hwv : value_to_length wv with
    | none =>
      cases hh : attr_value attrs "height" with
      | none => simp [hwv]
      | some hv => cases hhv : value_to_length hv <;> simp [hwv, hhv]
    | some wl =>
      cases hh : attr_value attrs "height" with
      | none => simp [hwv]
      | some hv => cases hhv : value_to_length hv <;> simp [hwv, hhv]

/-- C3 counterexample: no depth bound exists past which parsing returns an
error — for every candidate bound, the nested-`div` input of depth
`bound + 2` exceeds it and still parses without error.  The walk performs no
maximum-depth check; its only error path is the external tokenizer's. -/
theorem c3_no_depth_error_bound :
    ¬ ∃ bound : Nat, ∀ d : Dom,
        bound < Dom.depth d → (parse "" d).isOk = false := by
  rintro ⟨bound, h⟩
  have hd := h (deepDiv (bound + 1)) (by rw [deepDiv_depth]; omega)
  have hok : (parse "" (deepDiv (bound + 1))).isOk = true := rfl
  rw [hok] at hd
  cases hd

/-- C3 (amended): the recursive block-tree walk enforces no maximum-depth
check — parsing succeeds without a parse error for every input DOM, and the
`deepDiv` family witnesses inputs of unbounded nesting depth.  (Native stack
exhaustion is outside the embedding; the observable claim — a returned parse
error — is what fails.) -/
theorem c3_parse_succeeds_any_depth :
    (∀ (s : String) (d : Dom), (parse s d).isOk = true)
  ∧ (∀ n : Nat, Dom.depth (deepDiv n) = n + 1) :=
  ⟨fun _ _ => rfl, deepDiv_depth⟩

/-- C4: compaction is idempotent — compacting an already-compacted block
tree is a no-op (`compact (compact b) = compact b`). -/
theorem c4_compact_idempotent (b : BlockNode) :
    b.compact.compact = b.compact :=
  compact_idem_aux b

/-- C5: `extract_pre_code` agrees, on every node, with the spec's
description: the first direct `code` child with non-empty descendant text
yields that text and the language from the first class token with a
`language-`/`lang-` prefix (stripped); otherwise the node's own descendant
text with no language; `none` only when that fallback text is also empty. -/
theorem c5_extract_pre_code_spec (node : Dom) :
    extract_pre_code node = spec_extract_pre_code node := by
  unfold extract_pre_code spec_extract_pre_code
  rw [pre_code_loop_eq]
  cases h : node.childrenOf.find? goodCode with
  | some c => simp [extract_code_language_eq]
  | none => rfl

/-- C6: a row child counts as a cell exactly when it is a `td`/`th` element
with a non-empty DOM child list; the row is appended to the table iff at
least one cell survived; consequently every row of a produced table keeps at
least one cell (given all rows already in the table do). -/
theorem c6_parse_table_row_spec (table : Table) (node : Dom)
    (hinv : ∀ r ∈ table.children, r.children ≠ []) :
    (parse_table_row table node =
      if (node.childrenOf.filter goodCell).isEmpty then table
      else { children := table.children ++
              [{ children := (node.childrenOf.filter goodCell).map cellOf }] })
  ∧ ∀ r ∈ (parse_table_row table node).children, r.children ≠ [] := by
  have hrc := ptr_loop_eq node.childrenOf ⟨[]⟩ 0
  have hmain : parse_table_row table node =
      if (node.childrenOf.filter goodCell).isEmpty then table
      else { children := table.children ++
              [{ children := (node.childrenOf.filter goodCell).map cellOf }] } := by
    unfold parse_table_row
    rw [hrc]
    cases hfl : node.childrenOf.filter goodCell with
    | nil => simp
    | cons a l => simp
  refine ⟨hmain, ?_⟩
  rw [hmain]
  cases hfl : node.childrenOf.filter goodCell with
  | nil => simpa using hinv
  | cons a l =>
    simp only [List.isEmpty_cons, if_false, Bool.false_eq_true]
    intro r hr
    rcases List.mem_append.mp hr with hold | hnew
    · exact hinv r hold
    · rcases List.mem_singleton.mp hnew with rfl
      simp

/-- Witness for C6 at a concrete row with one surviving cell. -/
theorem c6_parse_table_row_spec_witness :
    parse_table_row {} (.element "tr" [] [.element "td" [] [.text "x"]])
      = { children := [{ children := [cellOf (.element "td" [] [.text "x"])] }] } := by
  rw [(c6_parse_table_row_spec {} (.element "tr" [] [.element "td" [] [.text "x"]])
    (fun r hr => absurd hr (List.not_mem_nil r))).1]
  rfl

/-- C7: flushing converts a non-empty accumulator into exactly one
`Paragraph` block appended to the children list and resets the accumulator;
an empty accumulator is a strict no-op.  The emitted block carries the
accumulator itself, which is non-empty by the guard — so no empty paragraph
ever enters a block sequence through flushing. -/
theorem c7_consume_paragraph_flush (children : List BlockNode) (p : Paragraph) :
    (p.is_empty = true → consume_paragraph children p = (children, p))
  ∧ (p.is_empty = false →
      consume_paragraph children p = (children ++ [.paragraph p], ⟨[]⟩)) := by
  constructor
  · intro h; simp [consume_paragraph, h]
  · intro h; simp [consume_paragraph, h, Paragraph.take]

/-- Witness for C7 at concrete accumulators. -/
theorem c7_consume_paragraph_flush_witness :
    consume_paragraph [] (Paragraph.mk [.text "x" []])
      = ([.paragraph (Paragraph.mk [.text "x" []])], ⟨[]⟩)
  ∧ consume_paragraph [] ⟨[]⟩ = ([], (⟨[]⟩ : Paragraph)) :=
  ⟨(c7_consume_paragraph_flush [] _).2 rfl, (c7_consume_paragraph_flush [] _).1 rfl⟩

/-- C8: an `img` element without a `src` attribute is skipped in both paths:
the inline builder returns empty text and marks and leaves the accumulator
untouched, and the block builder produces no block and leaves the
accumulator untouched. -/
theorem c8_img_missing_src_skipped (attrs : List (String × String))
    (cs : List Dom) (p : Paragraph) (hsrc : attr_value attrs "src" = none) :
    parse_paragraph p (.element "img" attrs cs) = (p, "", [])
  ∧ parse_node (.element "img" attrs cs) p = (none, p) := by
  constructor
  · simp [parse_paragraph, hsrc]
  · simp [parse_node, hsrc]

/-- Witness for C8 at a concrete `img` element lacking `src`. -/
theorem c8_img_missing_src_skipped_witness :
    parse_paragraph {} (.element "img" [("alt", "x")] []) = ({}, "", [])
  ∧ parse_node (.element "img" [("alt", "x")] []) {} = (none, ({} : Paragraph)) :=
  c8_img_missing_src_skipped [("alt", "x")] [] {} rfl

/-- C9 counterexample: on `"1pxpx"` the source strips both trailing `px`
occurrences (`trim_end_matches` removes the suffix repeatedly) and yields
`1px`, while the claim's single optional strip leaves `"1px"`, which fails
to parse — so the claim's "strips an optional trailing `px`" is not what the
code does. -/
theorem c9_trailing_px_counterexample :
    value_to_length "1pxpx" = some (.px 1)
  ∧ claim_value_to_length "1pxpx" = none := by
  constructor
  · simp [value_to_length, endsWithStr, trimEndMatches, stripTrailFuel, parseF32,
      parseSign, splitAtFirst, parseMantissa, allDigits, digitsVal, digitVal]
  · simp [claim_value_to_length, endsWithStr, parseF32, parseSign, splitAtFirst,
      parseMantissa, allDigits]

/-- C9 (amended): inputs ending in `%` parse the prefix before the trailing
`%` signs as a float and yield `relative(value/100)`; all other inputs strip
every trailing `px` suffix (repeatedly, not just one) and parse the
remainder as a pixel value; parse failure yields `none`; and the four cited
evaluations hold. -/
theorem c9_value_to_length_spec :
    (∀ v : String, endsWithStr v "%" = true →
      value_to_length v
        = (parseF32 (trimEndMatches v "%")).map (fun q => DefiniteLength.relative (q / 100)))
  ∧ (∀ v : String, endsWithStr v "%" = false →
      value_to_length v = (parseF32 (trimEndMatches v "px")).map DefiniteLength.px)
  ∧ value_to_length "100px" = some (.px 100)
  ∧ value_to_length "100%" = some (.relative 1)
  ∧ value_to_length "56%" = some (.relative (56 / 100))
  ∧ value_to_length "240" = some (.px 240) := by
  refine ⟨?_, ?_, ?_, ?_, ?_, ?_⟩
  · intro v h; simp [value_to_length, h]
  · intro v h; simp [value_to_length, h]
  · simp [value_to_length, endsWithStr, trimEndMatches, stripTrailFuel, parseF32,
      parseSign, splitAtFirst, parseMantissa, allDigits, digitsVal, digitVal]
  · simp [value_to_length, endsWithStr, trimEndMatches, stripTrailFuel, parseF32,
      parseSign, splitAtFirst, parseMantissa, allDigits, digitsVal, digitVal]
  · simp [value_to_length, endsWithStr, trimEndMatches, stripTrailFuel, parseF32,
      parseSign, splitAtFirst, parseMantissa, allDigits, digitsVal, digitVal]
  · simp [value_to_length, endsWithStr, trimEndMatches, stripTrailFuel, parseF32,
      parseSign, splitAtFirst, parseMantissa, allDigits, digitsVal, digitVal]

/-- Witness for C9's two conditional parts at concrete inputs. -/
theorem c9_value_to_length_spec_witness :
    value_to_length "7%"
      = (parseF32 (trimEndMatches "7%" "%")).map (fun q => DefiniteLength.relative (q / 100))
  ∧ value_to_length "3" = (parseF32 (trimEndMatches "3" "px")).map DefiniteLength.px :=
  ⟨c9_value_to_length_spec.1 "7%" rfl, c9_value_to_length_spec.2.1 "3" rfl⟩

/-- C10 counterexample: with the overlapping overlay ranges `[0, 10)` and
`[8, 12)` and initial selection `[11, 15)`, the snapping pass produces
`[8, 15)`, which still partially overlaps the first overlay's range — the
claimed property fails for arbitrary overlay lists. -/
theorem c10_partial_overlap_counterexample :
    snap_selection ⟨11, 15⟩ [⟨0, 10⟩, ⟨8, 4⟩] = ⟨8, 15⟩
  ∧ ¬ selOk (snap_selection ⟨11, 15⟩ [⟨0, 10⟩, ⟨8, 4⟩]) ⟨0, 10⟩ := by
  have h : snap_selection ⟨11, 15⟩ [⟨0, 10⟩, ⟨8, 4⟩] = ⟨8, 15⟩ := rfl
  refine ⟨h, ?_⟩
  rw [h]
  simp [selOk, covers, apartFrom]

/-- C10 (amended): whenever the overlays' placeholder byte ranges are
pairwise disjoint — as they are for placeholders of distinct inline images
in one text — the snapped selection never partially overlaps any overlay's
range: for each overlay it either contains the whole range or is disjoint
from it. -/
theorem c10_snap_no_partial_overlap (overlays : List InlineOverlay)
    (sel : Selection) (h : List.Pairwise overlaysDisjoint overlays) :
    ∀ o ∈ overlays, selOk (snap_selection sel overlays) o :=
  snap_selection_ok overlays sel h

/-- Witness for C10 at a concrete disjoint overlay list. -/
theorem c10_snap_no_partial_overlap_witness :
    selOk (snap_selection ⟨1, 6⟩ [⟨0, 2⟩, ⟨5, 3⟩]) ⟨0, 2⟩ :=
  c10_snap_no_partial_overlap [⟨0, 2⟩, ⟨5, 3⟩] ⟨1, 6⟩
    (by simp [List.pairwise_cons, overlaysDisjoint])
    ⟨0, 2⟩ (List.mem_cons_self _ _)
